import Mathlib

/-!
Verification of the KdV integrating-factor solver of
main_KdV_generate_data.py against its natural-language specification.

The Python source is shallowly embedded over exact arithmetic:
numpy float arrays become lists of real numbers, complex spectral
arrays become lists of complex numbers, and elementwise numpy
operations become zipWith and map on lists.  Fallible operations
(indexing a too-short array) return an Except value carrying the
Python exception kind.
-/

noncomputable section

open scoped BigOperators

/-- Kinds of Python runtime errors relevant to the embedded code.
The constructor invalidConfiguration corresponds to the error class
named by the specification; the source never raises it. -/
inductive PyError where
  | indexError
  | notImplementedError
  | typeError
  | invalidConfiguration
  deriving DecidableEq

/-- Elementwise sum of two complex arrays (numpy +). -/
def addL (a b : List ℂ) : List ℂ := List.zipWith (· + ·) a b

/-- Elementwise product of two complex arrays (numpy *). -/
def mulL (a b : List ℂ) : List ℂ := List.zipWith (· * ·) a b

/-- Scalar times a complex array (numpy scalar broadcasting). -/
def scl (c : ℂ) (a : List ℂ) : List ℂ := a.map (fun z => c * z)

/-- Complex array divided elementwise by a scalar. -/
def divCL (a : List ℂ) (c : ℂ) : List ℂ := a.map (fun z => z / c)

/-- Elementwise square of a real array (numpy **2). -/
def sqL (a : List ℝ) : List ℝ := a.map (fun r => r ^ 2)

/-- Real array viewed as a complex array. -/
def kC (k : List ℝ) : List ℂ := k.map (fun r : ℝ => (r : ℂ))

/-- Modelled from the spec: the numpy helper rfftfreq, absent from the
repository sources.  For n samples with spacing d it returns the
n/2+1 non-negative real-FFT frequency bins j/(d*n). -/
def rfftfreq (n : ℕ) (d : ℝ) : List ℝ :=
  (List.range (n / 2 + 1)).map (fun j : ℕ => (j : ℝ) / (d * n))

/-- Entry j of the discrete Fourier transform of a complex sequence:
the sum of u m times exp (-2 pi I j m / length). -/
def dftEntry (u : List ℂ) (j : ℕ) : ℂ :=
  ∑ m ∈ Finset.range u.length,
    u.getD m 0 * Complex.exp (-(2 * Real.pi * Complex.I * j * m) / u.length)

/-- Modelled from the spec: the forward real-valued discrete Fourier
transform (scipy rfft, absent from the repository sources), mapping a
length-N real input to the length-N/2+1 complex half spectrum. -/
def rfftL (u : List ℝ) : List ℂ :=
  (List.range (u.length / 2 + 1)).map (fun j => dftEntry (u.map (fun r : ℝ => (r : ℂ))) j)

/-- Hermitian extension of a half spectrum U to a full spectrum of
length N: entries beyond the stored half are conjugates of the
mirrored entries. -/
def hermExt (U : List ℂ) (N j : ℕ) : ℂ :=
  if j < U.length then U.getD j 0 else (starRingEnd ℂ) (U.getD (N - j) 0)

/-- Modelled from the spec: the inverse real-valued discrete Fourier
transform with its default output length (scipy irfft, absent from the
repository sources).  A length-M half spectrum yields 2*(M-1) real
samples, reconstructed from the Hermitian extension. -/
def irfftL (U : List ℂ) : List ℝ :=
  (List.range (2 * (U.length - 1))).map (fun m : ℕ =>
    ((∑ j ∈ Finset.range (2 * (U.length - 1)),
        hermExt U (2 * (U.length - 1)) j *
          Complex.exp ((2 * Real.pi * Complex.I * j * m) / ((2 * (U.length - 1) : ℕ) : ℂ))) /
      ((2 * (U.length - 1) : ℕ) : ℂ)).re)

/-- The attribute record built by KdVSolverBaseClass.__init__. -/
structure KdVSolver where
  nSkip : ℕ
  delta : ℝ
  dt : ℝ
  t : List ℝ
  x : List ℝ
  k : List ℝ

namespace KdVSolverBaseClass

/-- Embedding of KdVSolverBaseClass.__init__.  The constructor reads
t[1], t[0], x[1] and x[0]; on a too-short grid Python raises an
IndexError, modelled as an error value.  Otherwise it stores nSkip,
delta, dt = t[1]-t[0], the grids, and the wavenumber grid
k = rfftfreq(x.size, x[1]-x[0]) * 2 * pi. -/
def init (t x : List ℝ) (delta : ℝ) (nSkip : ℕ) : Except PyError KdVSolver :=
  match t[1]?, t[0]?, x[1]?, x[0]? with
  | some t1, some t0, some x1, some x0 =>
      Except.ok { nSkip := nSkip, delta := delta, dt := t1 - t0, t := t, x := x,
                  k := (rfftfreq x.length (x1 - x0)).map (fun v => v * (2 * Real.pi)) }
  | _, _, _, _ => Except.error PyError.indexError

end KdVSolverBaseClass

/-- The recording loop of KdVSolverBaseClass.solve: for each index i of
the given list (in the source, i runs over range(1, t.size)) the field
is advanced by one step, and when i mod nSkip is zero the pair of
t[i] and the inverse transform of the advanced field is appended. -/
def solveSteps (step : List ℂ → List ℂ) (nSkip : ℕ) (t : List ℝ) :
    List ℕ → List ℂ → List (ℝ × List ℝ)
  | [], _ => []
  | i :: rest, uk =>
      let uk1 := step uk
      if i % nSkip == 0 then
        (t.getD i 0, irfftL uk1) :: solveSteps step nSkip t rest uk1
      else
        solveSteps step nSkip t rest uk1

namespace KdVSolverBaseClass

/-- Embedding of KdVSolverBaseClass.solve.  It first appends the pair
of t[0] and the initial field, then iterates the supplied single-step
method (dynamic dispatch becomes an explicit function argument) over
indices 1 .. t.size - 1, recording every nSkip-th step, and returns the
recorded times and fields as two parallel lists. -/
def solve (S : KdVSolver) (step : List ℂ → List ℂ) (u : List ℝ) :
    List ℝ × List (List ℝ) :=
  let traj := (S.t.getD 0 0, u) ::
    solveSteps step S.nSkip S.t (List.range' 1 (S.t.length - 1)) (rfftL u)
  (traj.map Prod.fst, traj.map Prod.snd)

/-- Number of parameters of the base-class method singleStep besides
self: the source declares def singleStep(self) with no field
parameter. -/
def singleStepParamCount : ℕ := 0

/-- Body of the base-class singleStep: raise NotImplementedError. -/
def singleStepBody : Except PyError (List ℂ) :=
  Except.error PyError.notImplementedError

end KdVSolverBaseClass

/-- Python call semantics for a method of the embedded classes: when
the number of positional arguments supplied differs from the declared
parameter count, the call raises a TypeError before the body runs. -/
def callMethod (paramCount nArgs : ℕ) (body : Except PyError (List ℂ)) :
    Except PyError (List ℂ) :=
  if nArgs = paramCount then body else Except.error PyError.typeError

/-- The per-wavenumber propagation exponents g = 1j*k*k*k*delta*delta
computed in KdVIntegratingFactorSolver.singleStep. -/
def gList (k : List ℝ) (delta : ℝ) : List ℂ :=
  k.map (fun kv : ℝ => Complex.I * kv * kv * kv * delta * delta)

/-- The local lambda _dUkdt of singleStep: the derivative of the
auxiliary field, -0.5j * k * exp(-g*dt) * rfft(irfft(exp(g*dt)*uk)**2),
with dt the sub-time argument of the lambda. -/
def dUkdt (k : List ℝ) (g : List ℂ) (dtS : ℝ) (uk : List ℂ) : List ℂ :=
  mulL
    (mulL (scl (-(1 / 2) * Complex.I) (kC k))
      (g.map (fun gv => Complex.exp (-gv * dtS))))
    (rfftL (sqL (irfftL (mulL (g.map (fun gv => Complex.exp (gv * dtS))) uk))))

/-- The local lambda _a2o of singleStep: the backtransformation
Uk * exp(g*dt) from the auxiliary field to the original field. -/
def a2o (dtv : ℝ) (g : List ℂ) (Uk : List ℂ) : List ℂ :=
  mulL Uk (g.map (fun gv => Complex.exp (gv * dtv)))

/-- The local function _RK4 of singleStep, exactly as in the source:
k1 = _dUkdt(0, uk), k2 = _dUkdt(dt/2, uk + dt*k1/2),
k3 = _dUkdt(dt/2, uk + dt*k2/2), k4 = _dUkdt(dt, uk + dt*k3),
returning uk + dt*(k1 + 2*k2 + 2*k3 + k4)/6. -/
def rk4 (dtv : ℝ) (k : List ℝ) (g : List ℂ) (uk : List ℂ) : List ℂ :=
  let k1 := dUkdt k g 0 uk
  let k2 := dUkdt k g (dtv / 2) (addL uk (divCL (scl (dtv : ℂ) k1) 2))
  let k3 := dUkdt k g (dtv / 2) (addL uk (divCL (scl (dtv : ℂ) k2) 2))
  let k4 := dUkdt k g dtv (addL uk (scl (dtv : ℂ) k3))
  addL uk
    (divCL (scl (dtv : ℂ)
      (addL (addL (addL k1 (scl 2 k2)) (scl 2 k3)) k4)) 6)

namespace KdVIntegratingFactorSolver

/-- Embedding of KdVIntegratingFactorSolver.singleStep: build g from
the stored wavenumbers and dispersion parameter, advance the auxiliary
field with _RK4 at the stored step size, and backtransform with _a2o. -/
def singleStep (S : KdVSolver) (uk : List ℂ) : List ℂ :=
  a2o S.dt (gList S.k S.delta) (rk4 S.dt S.k (gList S.k S.delta) uk)

end KdVIntegratingFactorSolver

/-- The classical four-stage Runge-Kutta step as worded by the
specification: k1 = rhs(0, Uk), k2 = rhs(dt/2, Uk + dt/2*k1),
k3 = rhs(dt/2, Uk + dt/2*k2), k4 = rhs(dt, Uk + dt*k3), and the result
Uk + dt/6*(k1 + 2*k2 + 2*k3 + k4). -/
def rk4Spec (rhs : ℝ → List ℂ → List ℂ) (dtv : ℝ) (Uk : List ℂ) : List ℂ :=
  let k1 := rhs 0 Uk
  let k2 := rhs (dtv / 2) (addL Uk (scl ((dtv : ℂ) / 2) k1))
  let k3 := rhs (dtv / 2) (addL Uk (scl ((dtv : ℂ) / 2) k2))
  let k4 := rhs dtv (addL Uk (scl (dtv : ℂ) k3))
  addL Uk (scl ((dtv : ℂ) / 6)
    (addL (addL (addL k1 (scl 2 k2)) (scl 2 k3)) k4))

/-- Indices of the loop of solve at which a snapshot is recorded:
those i in 1 .. Nt-1 with i mod nSkip equal to zero. -/
def recordedIndices (Nt nSkip : ℕ) : List ℕ :=
  (List.range' 1 (Nt - 1)).filter (fun i => i % nSkip == 0)

-- Basic length lemmas.

@[simp] lemma length_addL (a b : List ℂ) : (addL a b).length = min a.length b.length := by
  simp [addL]

@[simp] lemma length_mulL (a b : List ℂ) : (mulL a b).length = min a.length b.length := by
  simp [mulL]

@[simp] lemma length_scl (c : ℂ) (a : List ℂ) : (scl c a).length = a.length := by
  simp [scl]

@[simp] lemma length_divCL (a : List ℂ) (c : ℂ) : (divCL a c).length = a.length := by
  simp [divCL]

@[simp] lemma length_sqL (a : List ℝ) : (sqL a).length = a.length := by
  simp [sqL]

@[simp] lemma length_kC (k : List ℝ) : (kC k).length = k.length := by
  simp [kC]

@[simp] lemma length_gList (k : List ℝ) (delta : ℝ) : (gList k delta).length = k.length := by
  simp [gList]

@[simp] lemma length_rfftfreq (n : ℕ) (d : ℝ) : (rfftfreq n d).length = n / 2 + 1 := by
  simp [rfftfreq]

@[simp] lemma length_rfftL (u : List ℝ) : (rfftL u).length = u.length / 2 + 1 := by
  simp [rfftL]

@[simp] lemma length_irfftL (U : List ℂ) : (irfftL U).length = 2 * (U.length - 1) := by
  simp [irfftL]

-- Indexing helpers.

lemma getD_map_range {α : Type _} (f : ℕ → α) (M j : ℕ) (d : α) (h : j < M) :
    ((List.range M).map f).getD j d = f j := by
  rw [List.getD_eq_getElem?_getD, List.getElem?_map, List.getElem?_range h]
  rfl

lemma getD_coe_map (u : List ℝ) (j : ℕ) :
    (u.map (fun r : ℝ => (r : ℂ))).getD j 0 = ((u.getD j 0 : ℝ) : ℂ) := by
  rw [List.getD_eq_getElem?_getD, List.getD_eq_getElem?_getD, List.getElem?_map]
  cases h : u[j]? <;> simp

-- Orthogonality of the discrete Fourier characters.

lemma exp_sum_orth (N m n : ℕ) (hm : m < N) (hn : n < N) :
    ∑ j ∈ Finset.range N,
      Complex.exp ((2 * Real.pi * Complex.I * j * ((m : ℂ) - n)) / N)
      = if m = n then (N : ℂ) else 0 := by
  have hN0 : (N : ℂ) ≠ 0 := Nat.cast_ne_zero.mpr (by omega)
  rcases eq_or_ne m n with he | hne
  · subst he
    simp
  · rw [if_neg hne]
    have hterm : ∀ j : ℕ,
        Complex.exp ((2 * Real.pi * Complex.I * j * ((m : ℂ) - n)) / N)
          = Complex.exp ((2 * Real.pi * Complex.I * ((m : ℂ) - n)) / N) ^ j := by
      intro j
      rw [← Complex.exp_nat_mul]
      congr 1
      ring
    have h2pi : (2 * (Real.pi : ℂ) * Complex.I) ≠ 0 := by
      simp [Real.pi_ne_zero, Complex.I_ne_zero, Complex.ofReal_ne_zero]
    have hroot : Complex.exp ((2 * Real.pi * Complex.I * ((m : ℂ) - n)) / N) ^ N = 1 := by
      rw [← Complex.exp_nat_mul]
      have harg : (N : ℂ) * ((2 * Real.pi * Complex.I * ((m : ℂ) - n)) / N)
          = (((m : ℤ) - (n : ℤ) : ℤ) : ℂ) * (2 * Real.pi * Complex.I) := by
        push_cast
        field_simp
        ring
      rw [harg, Complex.exp_int_mul_two_pi_mul_I]
    have hne1 : Complex.exp ((2 * Real.pi * Complex.I * ((m : ℂ) - n)) / N) ≠ 1 := by
      intro hcon
      rw [Complex.exp_eq_one_iff] at hcon
      obtain ⟨K, hK⟩ := hcon
      have hcast : ((m : ℂ) - n) = K * N := by
        field_simp at hK
        apply mul_left_cancel₀ h2pi
        linear_combination hK
      have hZ : (m : ℤ) - n = K * N := by exact_mod_cast hcast
      have h0 : (m : ℤ) - n ≠ 0 := sub_ne_zero.mpr (by exact_mod_cast hne)
      have hdvd : (N : ℤ) ∣ (m : ℤ) - n := ⟨K, by rw [hZ]; ring⟩
      have hge : (N : ℤ) ≤ |(m : ℤ) - n| :=
        Int.le_of_dvd (abs_pos.mpr h0) ((dvd_abs _ _).mpr hdvd)
      have hlt : |(m : ℤ) - (n : ℤ)| < (N : ℤ) := by
        rw [abs_lt]
        constructor <;> omega
      linarith
    calc
      ∑ j ∈ Finset.range N,
          Complex.exp ((2 * Real.pi * Complex.I * j * ((m : ℂ) - n)) / N)
        = ∑ j ∈ Finset.range N,
            Complex.exp ((2 * Real.pi * Complex.I * ((m : ℂ) - n)) / N) ^ j :=
          Finset.sum_congr rfl (fun j _ => hterm j)
      _ = (Complex.exp ((2 * Real.pi * Complex.I * ((m : ℂ) - n)) / N) ^ N - 1) /
            (Complex.exp ((2 * Real.pi * Complex.I * ((m : ℂ) - n)) / N) - 1) :=
          geom_sum_eq hne1 N
      _ = 0 := by rw [hroot]; simp

-- Conjugation symmetry of the transform of a real sequence.

lemma dftEntry_conj_sub (u : List ℝ) (j : ℕ) (hj : j ≤ u.length) (hN : u.length ≠ 0) :
    (starRingEnd ℂ) (dftEntry (u.map (fun r : ℝ => (r : ℂ))) (u.length - j))
      = dftEntry (u.map (fun r : ℝ => (r : ℂ))) j := by
  unfold dftEntry
  rw [map_sum]
  simp only [List.length_map]
  apply Finset.sum_congr rfl
  intro m hm
  rw [map_mul, getD_coe_map, Complex.conj_ofReal]
  congr 1
  rw [← Complex.exp_conj]
  have hNc : (u.length : ℂ) ≠ 0 := Nat.cast_ne_zero.mpr hN
  have hconjarg :
      (starRingEnd ℂ) (-(2 * Real.pi * Complex.I * (u.length - j : ℕ) * m) / u.length)
        = -(2 * Real.pi * Complex.I * j * m) / u.length + m * (2 * Real.pi * Complex.I) := by
    simp only [map_div₀, map_neg, map_mul, Complex.conj_I, Complex.conj_ofReal,
      map_natCast, map_ofNat]
    rw [Nat.cast_sub hj]
    field_simp
    ring
  rw [hconjarg, Complex.exp_add, Complex.exp_nat_mul_two_pi_mul_I, mul_one]

lemma rfftL_getD (u : List ℝ) (j : ℕ) (hj : j < u.length / 2 + 1) :
    (rfftL u).getD j 0 = dftEntry (u.map (fun r : ℝ => (r : ℂ))) j := by
  unfold rfftL
  exact getD_map_range _ _ _ _ hj

lemma hermExt_rfftL_eq (u : List ℝ) (hev : u.length % 2 = 0) (j : ℕ) (hj : j < u.length) :
    hermExt (rfftL u) u.length j = dftEntry (u.map (fun r : ℝ => (r : ℂ))) j := by
  unfold hermExt
  simp only [length_rfftL]
  by_cases hcase : j < u.length / 2 + 1
  · rw [if_pos hcase, rfftL_getD u j hcase]
  · rw [if_neg hcase, rfftL_getD u (u.length - j) (by omega)]
    exact dftEntry_conj_sub u j hj.le (by omega)

lemma irfft_entry_eq (u : List ℝ) (hev : u.length % 2 = 0) (n : ℕ) (hn : n < u.length) :
    ∑ j ∈ Finset.range u.length,
        hermExt (rfftL u) u.length j *
          Complex.exp ((2 * Real.pi * Complex.I * j * n) / u.length)
      = (u.getD n 0 : ℂ) * u.length := by
  have hN0 : (u.length : ℂ) ≠ 0 := Nat.cast_ne_zero.mpr (by omega)
  calc
    ∑ j ∈ Finset.range u.length,
        hermExt (rfftL u) u.length j *
          Complex.exp ((2 * Real.pi * Complex.I * j * n) / u.length)
      = ∑ j ∈ Finset.range u.length,
          dftEntry (u.map (fun r : ℝ => (r : ℂ))) j *
            Complex.exp ((2 * Real.pi * Complex.I * j * n) / u.length) := by
        apply Finset.sum_congr rfl
        intro j hj
        rw [hermExt_rfftL_eq u hev j (Finset.mem_range.mp hj)]
    _ = ∑ j ∈ Finset.range u.length, ∑ m ∈ Finset.range u.length,
          (u.map (fun r : ℝ => (r : ℂ))).getD m 0 *
            Complex.exp (-(2 * Real.pi * Complex.I * j * m) / u.length) *
            Complex.exp ((2 * Real.pi * Complex.I * j * n) / u.length) := by
        apply Finset.sum_congr rfl
        intro j hj
        unfold dftEntry
        simp only [List.length_map]
        rw [Finset.sum_mul]
    _ = ∑ m ∈ Finset.range u.length, ∑ j ∈ Finset.range u.length,
          (u.map (fun r : ℝ => (r : ℂ))).getD m 0 *
            Complex.exp (-(2 * Real.pi * Complex.I * j * m) / u.length) *
            Complex.exp ((2 * Real.pi * Complex.I * j * n) / u.length) :=
        Finset.sum_comm
    _ = ∑ m ∈ Finset.range u.length,
          (u.map (fun r : ℝ => (r : ℂ))).getD m 0 *
            ∑ j ∈ Finset.range u.length,
              Complex.exp ((2 * Real.pi * Complex.I * j * ((n : ℂ) - m)) / u.length) := by
        apply Finset.sum_congr rfl
        intro m hm
        rw [Finset.mul_sum]
        apply Finset.sum_congr rfl
        intro j hj
        rw [mul_assoc, ← Complex.exp_add]
        congr 2
        field_simp
        ring
    _ = ∑ m ∈ Finset.range u.length,
          (u.map (fun r : ℝ => (r : ℂ))).getD m 0 *
            (if n = m then (u.length : ℂ) else 0) := by
        apply Finset.sum_congr rfl
        intro m hm
        rw [exp_sum_orth u.length n m hn (Finset.mem_range.mp hm)]
    _ = (u.getD n 0 : ℂ) * u.length := by
        simp only [mul_ite, mul_zero]
        rw [Finset.sum_ite_eq]
        simp only [Finset.mem_range, hn, if_true]
        rw [getD_coe_map]

/-- Exact round trip of the modelled real transform pair for sequences
of even length. -/
lemma irfftL_rfftL_of_even (u : List ℝ) (hev : u.length % 2 = 0) :
    irfftL (rfftL u) = u := by
  have hNrw : 2 * ((rfftL u).length - 1) = u.length := by
    simp only [length_rfftL]
    omega
  apply List.ext_getElem
  · simp only [length_irfftL, hNrw]
  · intro n h1 h2
    have hn : n < u.length := h2
    have hN0 : (u.length : ℂ) ≠ 0 := Nat.cast_ne_zero.mpr (by omega)
    unfold irfftL
    simp only [List.getElem_map, List.getElem_range, hNrw]
    rw [irfft_entry_eq u hev n hn, mul_div_assoc, div_self hN0, mul_one,
      Complex.ofReal_re, List.getD_eq_getElem?_getD, List.getElem?_eq_getElem hn]
    rfl

-- Unfolding equations for the recording loop.

lemma solveSteps_nil (step : List ℂ → List ℂ) (nSkip : ℕ) (t : List ℝ) (uk : List ℂ) :
    solveSteps step nSkip t [] uk = [] := rfl

lemma solveSteps_cons (step : List ℂ → List ℂ) (nSkip : ℕ) (t : List ℝ) (i : ℕ)
    (rest : List ℕ) (uk : List ℂ) :
    solveSteps step nSkip t (i :: rest) uk
      = if i % nSkip == 0 then
          (t.getD i 0, irfftL (step uk)) :: solveSteps step nSkip t rest (step uk)
        else solveSteps step nSkip t rest (step uk) := rfl

/-- Closed form of the recording loop over a contiguous index range:
it keeps exactly the indices divisible by nSkip, pairing each kept
index i with t i and the inverse transform of the i+1-a fold iterate
of the step map. -/
lemma solveSteps_range' (step : List ℂ → List ℂ) (nSkip : ℕ) (t : List ℝ) (m : ℕ) :
    ∀ (a : ℕ) (uk : List ℂ),
      solveSteps step nSkip t (List.range' a m) uk
        = ((List.range' a m).filter (fun i => i % nSkip == 0)).map
            (fun i => (t.getD i 0, irfftL (step^[i + 1 - a] uk))) := by
  induction m with
  | zero => intro a uk; rfl
  | succ m ih =>
      intro a uk
      rw [List.range'_succ, solveSteps_cons, ih (a + 1) (step uk), List.filter_cons]
      have htail :
          ((List.range' (a + 1) m).filter (fun i => i % nSkip == 0)).map
              (fun i => (t.getD i 0, irfftL (step^[i + 1 - (a + 1)] (step uk))))
            = ((List.range' (a + 1) m).filter (fun i => i % nSkip == 0)).map
              (fun i => (t.getD i 0, irfftL (step^[i + 1 - a] uk))) := by
        apply List.map_congr_left
        intro i hi
        have hmem : i ∈ List.range' (a + 1) m := List.mem_of_mem_filter hi
        have hai : a + 1 ≤ i := (List.mem_range'_1.mp hmem).1
        have h1 : i + 1 - (a + 1) = i - a := by omega
        have h2 : i + 1 - a = (i - a) + 1 := by omega
        rw [h1, h2, Function.iterate_succ_apply]
      by_cases hca : (a % nSkip == 0) = true
      · rw [if_pos hca, if_pos hca, htail, List.map_cons]
        have hhead : a + 1 - a = 1 := by omega
        rw [hhead, Function.iterate_one]
      · rw [if_neg hca, if_neg hca, htail]

/-- Closed form of solve: the first entry is the pair of t 0 and the
initial field, followed by one entry per recorded index i, pairing t i
with the inverse transform of the i-fold iterate of the step map
applied to the forward transform of the initial field. -/
lemma solve_eq (S : KdVSolver) (step : List ℂ → List ℂ) (u : List ℝ) :
    KdVSolverBaseClass.solve S step u
      = (S.t.getD 0 0 :: (recordedIndices S.t.length S.nSkip).map (fun i => S.t.getD i 0),
         u :: (recordedIndices S.t.length S.nSkip).map
            (fun i => irfftL (step^[i] (rfftL u)))) := by
  unfold KdVSolverBaseClass.solve recordedIndices
  rw [solveSteps_range']
  simp only [List.map_cons, List.map_map, Nat.add_sub_cancel]
  rfl

/-- Number of recorded loop indices: those i in 1 .. Nt-1 divisible by
nSkip, of which there are (Nt-1)/nSkip. -/
lemma length_recordedIndices (Nt nSkip : ℕ) :
    (recordedIndices Nt nSkip).length = (Nt - 1) / nSkip := by
  unfold recordedIndices
  generalize Nt - 1 = m
  induction m with
  | zero => simp
  | succ m ih =>
      rw [List.range'_concat, List.filter_append, List.length_append, ih, Nat.succ_div]
      simp only [one_mul, List.filter_cons, List.filter_nil]
      by_cases hd : nSkip ∣ (m + 1)
      · have hb : ((1 + m) % nSkip == 0) = true := by
          rw [beq_iff_eq, Nat.add_comm]
          exact Nat.dvd_iff_mod_eq_zero.mp hd
        rw [if_pos hd]
        simp [hb]
      · have hb : ¬ ((1 + m) % nSkip == 0) = true := by
          rw [beq_iff_eq, Nat.add_comm]
          intro hmod
          exact hd (Nat.dvd_iff_mod_eq_zero.mpr hmod)
        rw [if_neg hd]
        simp [hb]

-- Constructor analysis.

/-- The constructor either succeeds, when both grids have at least two
samples, or raises an IndexError from reading t 1, t 0, x 1 or x 0. -/
lemma init_cases (t x : List ℝ) (delta : ℝ) (nSkip : ℕ) :
    (2 ≤ t.length ∧ 2 ≤ x.length ∧
      ∃ S, KdVSolverBaseClass.init t x delta nSkip = Except.ok S)
    ∨ ((t.length < 2 ∨ x.length < 2) ∧
      KdVSolverBaseClass.init t x delta nSkip = Except.error PyError.indexError) := by
  unfold KdVSolverBaseClass.init
  by_cases hT : 2 ≤ t.length
  · by_cases hX : 2 ≤ x.length
    · left
      rw [List.getElem?_eq_getElem (show 1 < t.length by omega),
        List.getElem?_eq_getElem (show 0 < t.length by omega),
        List.getElem?_eq_getElem (show 1 < x.length by omega),
        List.getElem?_eq_getElem (show 0 < x.length by omega)]
      exact ⟨hT, hX, ⟨_, rfl⟩⟩
    · right
      refine ⟨Or.inr (by omega), ?_⟩
      rw [List.getElem?_eq_getElem (show 1 < t.length by omega),
        List.getElem?_eq_getElem (show 0 < t.length by omega),
        List.getElem?_eq_none_iff.mpr (show x.length ≤ 1 by omega)]
  · right
    refine ⟨Or.inl (by omega), ?_⟩
    rw [List.getElem?_eq_none_iff.mpr (show t.length ≤ 1 by omega)]

/-- Field values of a successfully constructed solver. -/
lemma init_ok_elim (t x : List ℝ) (delta : ℝ) (nSkip : ℕ) (S : KdVSolver)
    (h : KdVSolverBaseClass.init t x delta nSkip = Except.ok S) :
    S.nSkip = nSkip ∧ S.delta = delta ∧ S.dt = t.getD 1 0 - t.getD 0 0
      ∧ S.t = t ∧ S.x = x
      ∧ S.k = (rfftfreq x.length (x.getD 1 0 - x.getD 0 0)).map
          (fun v => v * (2 * Real.pi))
      ∧ 2 ≤ t.length ∧ 2 ≤ x.length := by
  have h2 : 2 ≤ t.length ∧ 2 ≤ x.length := by
    rcases init_cases t x delta nSkip with ⟨hT, hX, _⟩ | ⟨_, he⟩
    · exact ⟨hT, hX⟩
    · rw [he] at h; cases h
  obtain ⟨hT, hX⟩ := h2
  unfold KdVSolverBaseClass.init at h
  rw [List.getElem?_eq_getElem (show 1 < t.length by omega),
    List.getElem?_eq_getElem (show 0 < t.length by omega),
    List.getElem?_eq_getElem (show 1 < x.length by omega),
    List.getElem?_eq_getElem (show 0 < x.length by omega)] at h
  injection h with h
  subst h
  refine ⟨rfl, rfl, ?_, rfl, rfl, ?_, hT, hX⟩
  · simp only [List.getD_eq_getElem?_getD,
      List.getElem?_eq_getElem (show 1 < t.length by omega),
      List.getElem?_eq_getElem (show 0 < t.length by omega)]
    rfl
  · simp only [List.getD_eq_getElem?_getD,
      List.getElem?_eq_getElem (show 1 < x.length by omega),
      List.getElem?_eq_getElem (show 0 < x.length by omega)]
    rfl

-- Pointwise characterizations of the elementwise operations.

lemma getD_mulL (a b : List ℂ) (j : ℕ) (ha : j < a.length) (hb : j < b.length) :
    (mulL a b).getD j 0 = a.getD j 0 * b.getD j 0 := by
  simp only [mulL, List.getD_eq_getElem?_getD, List.getElem?_zipWith,
    List.getElem?_eq_getElem ha, List.getElem?_eq_getElem hb]
  rfl

lemma getD_map_lt {α β : Type _} (f : α → β) (l : List α) (j : ℕ) (d : α) (e : β)
    (h : j < l.length) :
    (l.map f).getD j e = f (l.getD j d) := by
  simp only [List.getD_eq_getElem?_getD, List.getElem?_map, List.getElem?_eq_getElem h]
  rfl

lemma mulL_map_one_right {β : Type _} (a : List ℂ) (l : List β) (h : a.length ≤ l.length) :
    mulL a (l.map (fun _ => (1 : ℂ))) = a := by
  induction a generalizing l with
  | nil => rfl
  | cons z zs ih =>
      cases l with
      | nil => simp at h
      | cons y ys =>
          simp only [List.map_cons, mulL, List.zipWith_cons_cons, mul_one]
          exact congrArg (List.cons z) (ih ys (by simpa using h))

lemma mulL_map_one_left {β : Type _} (l : List β) (a : List ℂ) (h : a.length ≤ l.length) :
    mulL (l.map (fun _ => (1 : ℂ))) a = a := by
  induction a generalizing l with
  | nil => simp [mulL]
  | cons z zs ih =>
      cases l with
      | nil => simp at h
      | cons y ys =>
          simp only [List.map_cons, mulL, List.zipWith_cons_cons, one_mul]
          exact congrArg (List.cons z) (ih ys (by simpa using h))

lemma divCL_scl (c d : ℂ) (v : List ℂ) : divCL (scl c v) d = scl (c / d) v := by
  unfold divCL scl
  rw [List.map_map]
  apply List.map_congr_left
  intro z hz
  simp only [Function.comp_apply]
  ring

-- Length preservation through one RK4 step.

lemma length_dUkdt (k : List ℝ) (g : List ℂ) (dtS : ℝ) (uk : List ℂ)
    (hg : g.length = k.length) (huk : uk.length = k.length) :
    (dUkdt k g dtS uk).length = k.length := by
  simp only [dUkdt, length_mulL, length_scl, length_kC, List.length_map, length_rfftL,
    length_sqL, length_irfftL, hg, huk]
  omega

lemma length_rk4 (dtv : ℝ) (k : List ℝ) (g : List ℂ) (uk : List ℂ)
    (hg : g.length = k.length) (huk : uk.length = k.length) :
    (rk4 dtv k g uk).length = k.length := by
  unfold rk4
  have h1 := length_dUkdt k g 0 uk hg huk
  have a2 : (addL uk (divCL (scl ((dtv : ℂ)) (dUkdt k g 0 uk)) 2)).length = k.length := by
    simp only [length_addL, length_divCL, length_scl, h1, huk, min_self]
  have h2 := length_dUkdt k g (dtv / 2) _ hg a2
  have a3 : (addL uk (divCL (scl ((dtv : ℂ))
      (dUkdt k g (dtv / 2)
        (addL uk (divCL (scl ((dtv : ℂ)) (dUkdt k g 0 uk)) 2)))) 2)).length
      = k.length := by
    simp only [length_addL, length_divCL, length_scl, h2, huk, min_self]
  have h3 := length_dUkdt k g (dtv / 2) _ hg a3
  have a4 : (addL uk (scl ((dtv : ℂ))
      (dUkdt k g (dtv / 2)
        (addL uk (divCL (scl ((dtv : ℂ))
          (dUkdt k g (dtv / 2)
            (addL uk (divCL (scl ((dtv : ℂ)) (dUkdt k g 0 uk)) 2)))) 2))))).length
      = k.length := by
    simp only [length_addL, length_scl, h3, huk, min_self]
  have h4 := length_dUkdt k g dtv _ hg a4
  simp only [length_addL, length_divCL, length_scl, h1, h2, h3, h4, huk, min_self]

lemma length_singleStep (S : KdVSolver) (uk : List ℂ) (huk : uk.length = S.k.length) :
    (KdVIntegratingFactorSolver.singleStep S uk).length = S.k.length := by
  unfold KdVIntegratingFactorSolver.singleStep a2o
  simp only [length_mulL, List.length_map, length_gList,
    length_rk4 S.dt S.k (gList S.k S.delta) uk (length_gList S.k S.delta) huk, min_self]

lemma length_iterate_singleStep (S : KdVSolver) (uk : List ℂ)
    (huk : uk.length = S.k.length) :
    ∀ i : ℕ, ((KdVIntegratingFactorSolver.singleStep S)^[i] uk).length = S.k.length := by
  intro i
  induction i with
  | zero => exact huk
  | succ i ih =>
      rw [Function.iterate_succ_apply']
      exact length_singleStep S _ ih

-- Claim theorems.

/-- Claim C1, amended: for a run over a temporal grid with Nt points
(Nt at least 2) and record stride nSkip at least 1, the trajectory
returned by solve contains exactly floor ((Nt-1)/nSkip) + 1 recorded
pairs (the claim said ceil); in particular with nSkip = 1 the length
equals Nt, and with nSkip at least Nt only the first snapshot is
recorded. -/
theorem C1_trajectory_length (S : KdVSolver) (step : List ℂ → List ℂ) (u : List ℝ)
    (_h1 : 1 ≤ S.nSkip) (h2 : 2 ≤ S.t.length) :
    (KdVSolverBaseClass.solve S step u).1.length = (S.t.length - 1) / S.nSkip + 1
    ∧ (S.nSkip = 1 → (KdVSolverBaseClass.solve S step u).1.length = S.t.length)
    ∧ (S.t.length ≤ S.nSkip → (KdVSolverBaseClass.solve S step u).1.length = 1) := by
  have hlen : (KdVSolverBaseClass.solve S step u).1.length
      = (S.t.length - 1) / S.nSkip + 1 := by
    rw [solve_eq]
    simp [length_recordedIndices]
  refine ⟨hlen, ?_, ?_⟩
  · intro hs
    rw [hlen, hs, Nat.div_one]
    omega
  · intro hs
    rw [hlen, Nat.div_eq_of_lt (by omega)]

/-- A concrete solver used to instantiate the trajectory-length
theorem. -/
def trajW : KdVSolver :=
  { nSkip := 2, delta := 1, dt := 1, t := [0, 1, 2, 3, 4], x := [0, 1], k := [0, 1] }

/-- Witness for claim C1 at a concrete run: Nt = 5, nSkip = 2. -/
theorem C1_trajectory_length_witness :
    1 ≤ trajW.nSkip ∧ 2 ≤ trajW.t.length ∧
      (KdVSolverBaseClass.solve trajW id [0, 1]).1.length
        = (trajW.t.length - 1) / trajW.nSkip + 1 :=
  ⟨by norm_num [trajW], by norm_num [trajW],
    (C1_trajectory_length trajW id [0, 1] (by norm_num [trajW])
      (by norm_num [trajW])).1⟩

/-- A concrete solver refuting the ceiling formula of claim C1. -/
def cexS : KdVSolver :=
  { nSkip := 3, delta := 1, dt := 1, t := [0, 1, 2, 3, 4], x := [0, 1, 2, 3], k := [0, 1] }

/-- Counterexample to claim C1 as stated: with Nt = 5 and nSkip = 3 the
solver records 2 pairs, while ceil ((Nt-1)/nSkip) + 1 = 3. -/
theorem C1_counterexample :
    (KdVSolverBaseClass.solve cexS
        (KdVIntegratingFactorSolver.singleStep cexS) [1, 0, 0, 0]).1.length
      ≠ (cexS.t.length - 1 + (cexS.nSkip - 1)) / cexS.nSkip + 1 := by
  rw [solve_eq]
  simp only [List.length_cons, List.length_map, length_recordedIndices]
  norm_num [cexS]

/-- Claim C2: the local function RK4 of singleStep computes the
classical four-stage Runge-Kutta formula with the nonlinear-term
evaluator as right-hand side, evaluated at sub-times 0, dt/2, dt/2 and
dt, returning Uk + dt/6 times (k1 + 2 k2 + 2 k3 + k4). -/
theorem C2_rk4_is_classical (dtv : ℝ) (k : List ℝ) (g : List ℂ) (uk : List ℂ) :
    rk4 dtv k g uk = rk4Spec (dUkdt k g) dtv uk := by
  unfold rk4 rk4Spec
  simp only [divCL_scl]

/-- Claim C8: the first trajectory entry is the pair of the first
temporal grid point and the initial field, recorded unconditionally
before any step, for any record stride. -/
theorem C8_first_snapshot (S : KdVSolver) (step : List ℂ → List ℂ) (u : List ℝ) :
    (KdVSolverBaseClass.solve S step u).1.head? = some (S.t.getD 0 0)
    ∧ (KdVSolverBaseClass.solve S step u).2.head? = some u := by
  rw [solve_eq]
  exact ⟨rfl, rfl⟩

-- Pointwise helpers for the nonlinear evaluator.

lemma getD_scl (c : ℂ) (a : List ℂ) (j : ℕ) (h : j < a.length) :
    (scl c a).getD j 0 = c * a.getD j 0 :=
  getD_map_lt _ a j 0 0 h

lemma getD_kC (k : List ℝ) (j : ℕ) (h : j < k.length) :
    (kC k).getD j 0 = ((k.getD j 0 : ℝ) : ℂ) :=
  getD_map_lt _ k j 0 0 h

lemma getD_gList (k : List ℝ) (delta : ℝ) (j : ℕ) (h : j < k.length) :
    (gList k delta).getD j 0
      = Complex.I * (k.getD j 0 : ℝ) * (k.getD j 0 : ℝ) * (k.getD j 0 : ℝ)
          * (delta : ℝ) * (delta : ℝ) :=
  getD_map_lt _ k j 0 0 h

/-- Claim C3: the nonlinear right-hand side equals, elementwise,
-0.5 i k exp(-g dt_sub) forward(inverse(exp(g dt_sub) Uk)^2), with
g = i k^3 delta^2 purely imaginary for every wavenumber, the two
exponential factors cancelling exactly at dt_sub = 0, and the stored
wavenumber grid being 2 pi times the real-FFT frequency bins. -/
theorem C3_rhs_formula (k : List ℝ) (delta : ℝ) (dtS : ℝ) (uk : List ℂ)
    (huk : uk.length = k.length) :
    (∀ j, j < k.length →
        (dUkdt k (gList k delta) dtS uk).getD j 0
          = -(1 / 2) * Complex.I * (k.getD j 0 : ℝ)
              * Complex.exp (-(Complex.I * (k.getD j 0 : ℝ) ^ 3 * (delta : ℝ) ^ 2) * dtS)
              * (rfftL (sqL (irfftL (mulL ((gList k delta).map
                  (fun gv => Complex.exp (gv * dtS))) uk)))).getD j 0)
    ∧ (∀ gv ∈ gList k delta, gv.re = 0)
    ∧ dUkdt k (gList k delta) 0 uk
        = mulL (scl (-(1 / 2) * Complex.I) (kC k)) (rfftL (sqL (irfftL uk)))
    ∧ ∀ (t x : List ℝ) (d2 : ℝ) (n : ℕ) (S : KdVSolver),
        KdVSolverBaseClass.init t x d2 n = Except.ok S →
          S.k = (rfftfreq x.length (x.getD 1 0 - x.getD 0 0)).map
            (fun v => v * (2 * Real.pi)) := by
  refine ⟨?_, ?_, ?_, ?_⟩
  · intro j hj
    have hR : (rfftL (sqL (irfftL (mulL ((gList k delta).map
        (fun gv => Complex.exp (gv * dtS))) uk)))).length = k.length := by
      simp only [length_rfftL, length_sqL, length_irfftL, length_mulL,
        List.length_map, length_gList, huk, min_self]
      omega
    simp only [dUkdt]
    rw [getD_mulL _ _ j
      (by simp only [length_mulL, length_scl, length_kC, List.length_map,
        length_gList, min_self]; exact hj)
      (by rw [hR]; exact hj)]
    rw [getD_mulL _ _ j (by simp only [length_scl, length_kC]; exact hj)
      (by simp only [List.length_map, length_gList]; exact hj)]
    rw [getD_scl _ _ j (by simp only [length_kC]; exact hj), getD_kC k j hj,
      getD_map_lt (fun gv => Complex.exp (-gv * dtS)) (gList k delta) j 0 0
        (by simp only [length_gList]; exact hj),
      getD_gList k delta j hj]
    have harg : -(Complex.I * ((k.getD j 0 : ℝ) : ℂ) * ((k.getD j 0 : ℝ) : ℂ)
          * ((k.getD j 0 : ℝ) : ℂ) * ((delta : ℝ) : ℂ) * ((delta : ℝ) : ℂ)) * (dtS : ℂ)
        = -(Complex.I * ((k.getD j 0 : ℝ) : ℂ) ^ 3 * ((delta : ℝ) : ℂ) ^ 2) * (dtS : ℂ) := by
      ring
    rw [harg]
  · intro gv hgv
    simp only [gList, List.mem_map] at hgv
    obtain ⟨kv, _, rfl⟩ := hgv
    simp [Complex.mul_re, Complex.mul_im]
  · simp only [dUkdt, Complex.ofReal_zero, mul_zero, Complex.exp_zero]
    rw [mulL_map_one_left _ uk (by simp only [length_gList]; omega),
      mulL_map_one_right _ _ (by simp only [length_mulL, length_scl, length_kC,
        length_gList, min_self, le_refl])]
  · intro t x d2 n S h
    exact (init_ok_elim t x d2 n S h).2.2.2.2.2.1

/-- Witness for claim C3 at a concrete wavenumber grid and field. -/
theorem C3_rhs_formula_witness :
    ([(1 : ℂ), 2].length = [(0 : ℝ), 1].length)
    ∧ dUkdt [(0 : ℝ), 1] (gList [(0 : ℝ), 1] 1) 0 [(1 : ℂ), 2]
        = mulL (scl (-(1 / 2) * Complex.I) (kC [(0 : ℝ), 1]))
            (rfftL (sqL (irfftL [(1 : ℂ), 2]))) :=
  ⟨rfl, (C3_rhs_formula [(0 : ℝ), 1] 1 0 [(1 : ℂ), 2] rfl).2.2.1⟩

/-- Claim C4: each recorded entry at a loop index i divisible by nSkip
pairs the grid time t i with the inverse transform of the backtrans-
formed RK4 output (the new auxiliary field times exp (g dt)), and
indices not divisible by nSkip append nothing. -/
theorem C4_recording_rule (S : KdVSolver) (u : List ℝ) :
    KdVSolverBaseClass.solve S (KdVIntegratingFactorSolver.singleStep S) u
      = (S.t.getD 0 0 :: (recordedIndices S.t.length S.nSkip).map (fun i => S.t.getD i 0),
         u :: (recordedIndices S.t.length S.nSkip).map
            (fun i => irfftL (a2o S.dt (gList S.k S.delta)
              (rk4 S.dt S.k (gList S.k S.delta)
                ((KdVIntegratingFactorSolver.singleStep S)^[i - 1] (rfftL u)))))) := by
  rw [solve_eq]
  have hmap : (recordedIndices S.t.length S.nSkip).map
      (fun i => irfftL ((KdVIntegratingFactorSolver.singleStep S)^[i] (rfftL u)))
      = (recordedIndices S.t.length S.nSkip).map
        (fun i => irfftL (a2o S.dt (gList S.k S.delta)
          (rk4 S.dt S.k (gList S.k S.delta)
            ((KdVIntegratingFactorSolver.singleStep S)^[i - 1] (rfftL u))))) := by
    apply List.map_congr_left
    intro i hi
    simp only [recordedIndices] at hi
    have hmem : i ∈ List.range' 1 (S.t.length - 1) := List.mem_of_mem_filter hi
    have h1i : 1 ≤ i := (List.mem_range'_1.mp hmem).1
    obtain ⟨j, rfl⟩ : ∃ j, i = j + 1 := ⟨i - 1, by omega⟩
    simp only [Nat.add_sub_cancel, Function.iterate_succ_apply']
    rfl
  rw [hmap]

/-- Claim C5, amended: for every real field of even length the round
trip inverse(forward(u)) returns u exactly; for odd length the default
inverse transform returns one sample fewer, so the round trip fails. -/
theorem C5_transform_roundtrip (u : List ℝ) (hev : u.length % 2 = 0) :
    irfftL (rfftL u) = u :=
  irfftL_rfftL_of_even u hev

/-- Witness for claim C5 at a concrete even-length field. -/
theorem C5_transform_roundtrip_witness :
    ([(1 : ℝ), 2].length % 2 = 0) ∧ irfftL (rfftL [(1 : ℝ), 2]) = [(1 : ℝ), 2] :=
  ⟨rfl, C5_transform_roundtrip [(1 : ℝ), 2] rfl⟩

/-- Counterexample to claim C5 as stated: for the odd length 3 the
round trip returns a list of length 2, not the input. -/
theorem C5_counterexample : irfftL (rfftL [(1 : ℝ), 0, 0]) ≠ [(1 : ℝ), 0, 0] := by
  intro hcon
  have hlen := congrArg List.length hcon
  simp at hlen

/-- Claim C6, amended: constructing the solver fails eagerly, with an
IndexError, exactly when a grid has fewer than two samples (the code
defines no InvalidConfiguration error), and the transforms validate
nothing: the inverse transform returns a value of length 2*(M-1) for
every input length M. -/
theorem C6_invalid_configuration (t x : List ℝ) (delta : ℝ) (nSkip : ℕ) :
    (KdVSolverBaseClass.init t x delta nSkip = Except.error PyError.indexError
      ↔ (t.length < 2 ∨ x.length < 2))
    ∧ ((∃ S, KdVSolverBaseClass.init t x delta nSkip = Except.ok S)
      ↔ (2 ≤ t.length ∧ 2 ≤ x.length))
    ∧ ∀ U : List ℂ, (irfftL U).length = 2 * (U.length - 1) := by
  refine ⟨⟨?_, ?_⟩, ⟨?_, ?_⟩, fun U => length_irfftL U⟩
  · intro h
    rcases init_cases t x delta nSkip with ⟨hT, hX, S, hok⟩ | ⟨hlt, _⟩
    · rw [hok] at h; cases h
    · exact hlt
  · intro h
    rcases init_cases t x delta nSkip with ⟨hT, hX, S, hok⟩ | ⟨hlt, he⟩
    · omega
    · exact he
  · rintro ⟨S, hok⟩
    rcases init_cases t x delta nSkip with ⟨hT, hX, _⟩ | ⟨hlt, he⟩
    · exact ⟨hT, hX⟩
    · rw [he] at hok; cases hok
  · rintro ⟨hT, hX⟩
    rcases init_cases t x delta nSkip with ⟨_, _, hS⟩ | ⟨hlt, _⟩
    · exact hS
    · omega

/-- Witness for claim C6 at concrete grids: a single time sample makes
construction fail, two samples each make it succeed. -/
theorem C6_invalid_configuration_witness :
    (KdVSolverBaseClass.init [(0 : ℝ)] [(0 : ℝ), 1] 1 1
        = Except.error PyError.indexError
      ↔ (([(0 : ℝ)].length < 2) ∨ ([(0 : ℝ), 1].length < 2)))
    ∧ (irfftL [(1 : ℂ), 2, 3]).length = 2 * ([(1 : ℂ), 2, 3].length - 1) :=
  ⟨(C6_invalid_configuration [(0 : ℝ)] [(0 : ℝ), 1] 1 1).1,
   (C6_invalid_configuration [(0 : ℝ)] [(0 : ℝ), 1] 1 1).2.2 [(1 : ℂ), 2, 3]⟩

/-- Counterexample to claim C6 as stated: the error actually raised at
construction is IndexError, not InvalidConfiguration. -/
theorem C6_counterexample :
    KdVSolverBaseClass.init [(0 : ℝ)] [(0 : ℝ), 1] 0.022 1
      = Except.error PyError.indexError
    ∧ (Except.error PyError.indexError : Except PyError KdVSolver)
        ≠ Except.error PyError.invalidConfiguration := by
  refine ⟨rfl, ?_⟩
  simp

/-- Claim C7 (code bug): the Driver calls self.singleStep with the
field argument, but the base class declares singleStep with no
parameter besides self, so the base-class call fails with a TypeError
from the arity mismatch; the NotImplementedError body is reached only
by a zero-argument invocation. -/
theorem C7_base_singleStep_arity :
    callMethod KdVSolverBaseClass.singleStepParamCount 1
        KdVSolverBaseClass.singleStepBody
      = Except.error PyError.typeError
    ∧ callMethod KdVSolverBaseClass.singleStepParamCount 0
        KdVSolverBaseClass.singleStepBody
      = Except.error PyError.notImplementedError
    ∧ PyError.typeError ≠ PyError.notImplementedError :=
  ⟨rfl, rfl, by decide⟩

/-- Claim C9, amended: the two returned lists have equal length, and
for an even spatial grid length N every recorded snapshot of the run
has length N; for odd N the snapshots after the first have length
N - 1. -/
theorem C9_snapshot_shape (t x : List ℝ) (delta : ℝ) (nSkip : ℕ) (S : KdVSolver)
    (u : List ℝ)
    (hS : KdVSolverBaseClass.init t x delta nSkip = Except.ok S)
    (hev : x.length % 2 = 0) (hu : u.length = x.length) :
    (KdVSolverBaseClass.solve S (KdVIntegratingFactorSolver.singleStep S) u).2.length
      = (KdVSolverBaseClass.solve S (KdVIntegratingFactorSolver.singleStep S) u).1.length
    ∧ ∀ w ∈ (KdVSolverBaseClass.solve S (KdVIntegratingFactorSolver.singleStep S) u).2,
        w.length = S.x.length := by
  obtain ⟨hn, hd, hdt, ht, hx, hk, hT, hX⟩ := init_ok_elim t x delta nSkip S hS
  have hkl : S.k.length = x.length / 2 + 1 := by rw [hk]; simp
  constructor
  · rw [solve_eq]
    simp
  · intro w hw
    rw [solve_eq] at hw
    simp only [List.mem_cons, List.mem_map] at hw
    rcases hw with rfl | ⟨i, hi, rfl⟩
    · rw [hx, hu]
    · rw [hx]
      have hrfft : (rfftL u).length = S.k.length := by
        rw [hkl, length_rfftL, hu]
      have hit := length_iterate_singleStep S (rfftL u) hrfft i
      simp only [length_irfftL, hit, hkl]
      omega

/-- A concrete solver over an odd spatial grid, as built by the
constructor from three spatial samples. -/
def oddS : KdVSolver :=
  { nSkip := 1, delta := 1, dt := 1 - 0, t := [0, 1], x := [0, 1, 2],
    k := (rfftfreq 3 (1 - 0)).map (fun v => v * (2 * Real.pi)) }

/-- Counterexample to claim C9 as stated: with the odd grid length 3
the run completes but its second snapshot has length 2. -/
theorem C9_counterexample :
    KdVSolverBaseClass.init [(0 : ℝ), 1] [(0 : ℝ), 1, 2] 1 1 = Except.ok oddS
    ∧ ((KdVSolverBaseClass.solve oddS
          (KdVIntegratingFactorSolver.singleStep oddS) [5, 6, 7]).2.getD 1 []).length = 2
    ∧ oddS.x.length = 3 := by
  refine ⟨rfl, ?_, rfl⟩
  rw [solve_eq]
  have hri : recordedIndices oddS.t.length oddS.nSkip = [1] := rfl
  rw [hri]
  simp only [List.map_cons, List.map_nil, List.getD_cons_succ, List.getD_cons_zero]
  have h1 : (rfftL [(5 : ℝ), 6, 7]).length = oddS.k.length := rfl
  rw [length_irfftL, length_iterate_singleStep oddS (rfftL [(5 : ℝ), 6, 7]) h1 1]
  simp [oddS]

/-- Witness for claim C9 at a concrete even grid: two spatial samples,
two time samples. -/
def evenS : KdVSolver :=
  { nSkip := 1, delta := 1, dt := 1 - 0, t := [0, 1], x := [0, 1],
    k := (rfftfreq 2 (1 - 0)).map (fun v => v * (2 * Real.pi)) }

theorem C9_snapshot_shape_witness :
    ([(0 : ℝ), 1].length % 2 = 0) ∧ ([(3 : ℝ), 4].length = [(0 : ℝ), 1].length)
    ∧ ∀ w ∈ (KdVSolverBaseClass.solve evenS
        (KdVIntegratingFactorSolver.singleStep evenS) [(3 : ℝ), 4]).2,
        w.length = evenS.x.length :=
  ⟨rfl, rfl,
    (C9_snapshot_shape [(0 : ℝ), 1] [(0 : ℝ), 1] 1 1 evenS [(3 : ℝ), 4] rfl rfl rfl).2⟩

/-- Claim C10: the step size is read once at construction as the first
temporal spacing t 1 - t 0; later grid spacings are never consulted,
so runs over equal-length grids with the same first spacing produce
identical snapshot fields, while each trajectory records its own grid
times. -/
theorem C10_dt_captured_once (t t2 x : List ℝ) (delta : ℝ) (nSkip : ℕ) (u : List ℝ)
    (S S2 : KdVSolver)
    (hS : KdVSolverBaseClass.init t x delta nSkip = Except.ok S)
    (hS2 : KdVSolverBaseClass.init t2 x delta nSkip = Except.ok S2)
    (hlen : t.length = t2.length)
    (hdt : t.getD 1 0 - t.getD 0 0 = t2.getD 1 0 - t2.getD 0 0) :
    S.dt = t.getD 1 0 - t.getD 0 0
    ∧ (KdVSolverBaseClass.solve S (KdVIntegratingFactorSolver.singleStep S) u).2
      = (KdVSolverBaseClass.solve S2 (KdVIntegratingFactorSolver.singleStep S2) u).2
    ∧ (KdVSolverBaseClass.solve S (KdVIntegratingFactorSolver.singleStep S) u).1
      = t.getD 0 0 :: (recordedIndices t.length nSkip).map (fun i => t.getD i 0) := by
  obtain ⟨hn, hd, hdtS, ht, hx, hk, hT, hX⟩ := init_ok_elim t x delta nSkip S hS
  obtain ⟨hn2, hd2, hdtS2, ht2, hx2, hk2, hT2, hX2⟩ :=
    init_ok_elim t2 x delta nSkip S2 hS2
  have hstep : KdVIntegratingFactorSolver.singleStep S
      = KdVIntegratingFactorSolver.singleStep S2 := by
    funext uk
    unfold KdVIntegratingFactorSolver.singleStep
    rw [hdtS, hdt, ← hdtS2, hk, ← hk2, hd, ← hd2]
  refine ⟨hdtS, ?_, ?_⟩
  · rw [solve_eq, solve_eq]
    simp only
    rw [hstep, ht, hn, hlen, ← ht2, ← hn2]
  · rw [solve_eq, ht, hn]

/-- Concrete solver on a non-uniform time grid with first spacing 1. -/
def S10a : KdVSolver :=
  { nSkip := 1, delta := 1, dt := 1 - 0, t := [0, 1, 3], x := [0, 1],
    k := (rfftfreq 2 (1 - 0)).map (fun v => v * (2 * Real.pi)) }

/-- Concrete solver on the uniform time grid with the same spacing. -/
def S10b : KdVSolver :=
  { nSkip := 1, delta := 1, dt := 1 - 0, t := [0, 1, 2], x := [0, 1],
    k := (rfftfreq 2 (1 - 0)).map (fun v => v * (2 * Real.pi)) }

/-- Witness for claim C10: a non-uniform grid 0, 1, 3 and the uniform
grid 0, 1, 2 with the same first spacing yield the same snapshot
fields. -/
theorem C10_dt_captured_once_witness :
    (KdVSolverBaseClass.solve S10a
        (KdVIntegratingFactorSolver.singleStep S10a) [1, 2]).2
      = (KdVSolverBaseClass.solve S10b
          (KdVIntegratingFactorSolver.singleStep S10b) [1, 2]).2
    ∧ S10a.dt = [(0 : ℝ), 1, 3].getD 1 0 - [(0 : ℝ), 1, 3].getD 0 0 :=
  ⟨(C10_dt_captured_once [0, 1, 3] [0, 1, 2] [0, 1] 1 1 [1, 2] S10a S10b
      rfl rfl rfl rfl).2.1,
   (C10_dt_captured_once [0, 1, 3] [0, 1, 2] [0, 1] 1 1 [1, 2] S10a S10b
      rfl rfl rfl rfl).1⟩

end
